import Mathlib

/-!
Verification of the yt-radar core services: term matcher, video filter,
ranker, search service and comment-terms service.

Modelling conventions (shallow embedding of the Python source):
* Python `str` is Lean `String`; text processing works on `String.data`
  (`List Char`).  `str.lower` is `Char.toLower` mapped over the characters,
  `str.strip` drops whitespace at both ends, `s.count(t)` is a
  non-overlapping left-to-right scan, `t in s` is substring containment.
* Python `int` is `Int`; loop counters that start at 0 and only grow are `Nat`.
* `collections.Counter` / `dict` (insertion ordered, increment-or-insert)
  is an association list `List (String × Nat)`; a missing key reads as 0.
* `datetime` values are UTC timestamps in seconds (`Int`);
  `datetime.fromisoformat` together with the `"Z" → "+00:00"` rewrite is
  abstracted as a parameter `parse : String → Option Int`, and
  `datetime.now(timezone.utc)` as a parameter `now : Int`.
* The platform client (network I/O) is abstracted as function parameters
  (`searchIds`, `fetchVideos`, `fetchC`) supplied by the caller.
* The Python `sorted(..., reverse=True)` / `list.sort(..., reverse=True)` is a
  stable descending sort; it is embedded as `List.insertionSort r` with
  `r a b` meaning "a may come before b" (key of `b` ≤ key of `a`), which is
  stable in exactly the same sense.
-/

namespace YtRadar

open List

/-- Lowercase a character list (embedding of `str.lower`). -/
def strLower (s : List Char) : List Char := s.map Char.toLower

/-- True iff the string is empty or all whitespace, i.e. the Python test
`not s.strip()`. -/
def isBlank (s : String) : Bool := s.data.all Char.isWhitespace

/-- Strip whitespace from both ends of a character list
(embedding of `str.strip`). -/
def stripL (s : List Char) : List Char :=
  ((s.dropWhile Char.isWhitespace).reverse.dropWhile Char.isWhitespace).reverse

/-- Embedding of `str.strip` on strings. -/
def pyStrip (s : String) : String := ⟨stripL s.data⟩

/-- Substring containment, the Python test `t in s`. -/
def containsSub (t : List Char) : List Char → Bool
  | [] => t.isEmpty
  | c :: rest => t.isPrefixOf (c :: rest) || containsSub t rest

/-- Left-to-right non-overlapping occurrence scan: after a match at the
current position the next `t.length - 1` characters are skipped (the head
was already consumed).  Structurally recursive helper for `countOccs`. -/
def countOccsAux (t : List Char) : List Char → Nat → Nat
  | [], _ => 0
  | _ :: rest, k + 1 => countOccsAux t rest k
  | c :: rest, 0 =>
    if t.isPrefixOf (c :: rest) then 1 + countOccsAux t rest (t.length - 1)
    else countOccsAux t rest 0

/-- Number of non-overlapping occurrences of `t` in `s`, the Python call
`s.count(t)` (for the empty needle Python returns `len(s) + 1`). -/
def countOccs (t s : List Char) : Nat :=
  if t.isEmpty then s.length + 1 else countOccsAux t s 0

/-- Embedding of `yt_radar.models.Video` (immutable dataclass). -/
structure Video where
  video_id : String
  title : String
  channel_title : String
  published_at : String
  view_count : Int
  comment_count : Int
deriving DecidableEq, Repr

/-- Embedding of `yt_radar.services.term_matcher.TermQuery`. -/
structure TermQuery where
  terms : List String
  mode : String
deriving DecidableEq, Repr

/-- Match condition of one comment text against the already-lowercased
needle list: `all` mode requires every needle, any other mode at least
one (the source tests `tq.mode == "all"` and defaults to `any`). -/
def okFor (needles : List (List Char)) (mode : String) (text : List Char) : Bool :=
  if mode = "all" then needles.all (fun t => containsSub t text)
  else needles.any (fun t => containsSub t text)

/-- The comment loop of `TermMatcher.match`, carrying the accumulators
`total_hits`, `matched_comments` and `samples`. -/
def matchGo (needles : List (List Char)) (mode : String) :
    List String → Nat → Nat → List String → Nat × Nat × List String
  | [], th, m, samples => (th, m, samples)
  | c :: cs, th, m, samples =>
    let text := strLower c.data
    if text.isEmpty then matchGo needles mode cs th m samples
    else
      let hits := (needles.map (fun t => countOccs t text)).sum
      if okFor needles mode text then
        matchGo needles mode cs (th + hits) (m + 1)
          (if samples.length < 3 then samples ++ [c] else samples)
      else matchGo needles mode cs th m samples

/-- Embedding of `TermMatcher.match`: blank terms are discarded, the rest lowercased
(not stripped); an empty needle list short-circuits to `(0, 0, [])`. -/
def matchQuery (comments : List String) (tq : TermQuery) : Nat × Nat × List String :=
  let needles := (tq.terms.filter (fun t => !(isBlank t))).map (fun t => strLower t.data)
  if needles.isEmpty then (0, 0, [])
  else matchGo needles tq.mode comments 0 0 []

/-- Embedding of `yt_radar.services.filtering.Filters` (immutable dataclass). -/
structure Filters where
  min_views : Int
  min_comments : Int
  since_days : Option Int
deriving DecidableEq, Repr

/-- Embedding of `filtering._since_cutoff`: `None` means no recency bound; a negative
day count is clamped to 0; otherwise the cutoff is `now - days` expressed
in seconds (`timedelta(days=days)`). -/
def sinceCutoff (now : Int) (days : Option Int) : Option Int :=
  match days with
  | none => none
  | some d => some (now - 86400 * (max d 0))

/-- Embedding of `filtering._published_after`: parse failure yields `False`, otherwise
compare the parsed timestamp against the cutoff (`dt >= cutoff`). -/
def publishedAfter (parse : String → Option Int) (published : String) (cutoff : Int) : Bool :=
  match parse published with
  | none => false
  | some dt => cutoff ≤ dt

/-- The video loop of `VideoFilter.apply` (each failed test `continue`s). -/
def applyGo (parse : String → Option Int) (cutoff : Option Int) (f : Filters) :
    List Video → List Video
  | [] => []
  | v :: vs =>
    if v.view_count < f.min_views then applyGo parse cutoff f vs
    else if v.comment_count < f.min_comments then applyGo parse cutoff f vs
    else
      match cutoff with
      | some cut =>
        if !(publishedAfter parse v.published_at cut) then applyGo parse cutoff f vs
        else v :: applyGo parse cutoff f vs
      | none => v :: applyGo parse cutoff f vs

/-- Embedding of `VideoFilter.apply`: the cutoff is computed once, then each video is
kept iff it passes all three threshold tests. -/
def VideoFilter.apply (parse : String → Option Int) (now : Int)
    (videos : List Video) (f : Filters) : List Video :=
  applyGo parse (sinceCutoff now f.since_days) f videos

/-- Descending-by-views comparison: `a` may come before `b`. -/
def viewGe (a b : Video) : Prop := b.view_count ≤ a.view_count

/-- Descending-by-comments comparison: `a` may come before `b`. -/
def commentGe (a b : Video) : Prop := b.comment_count ≤ a.comment_count

instance : DecidableRel viewGe :=
  fun a b => inferInstanceAs (Decidable (b.view_count ≤ a.view_count))

instance : DecidableRel commentGe :=
  fun a b => inferInstanceAs (Decidable (b.comment_count ≤ a.comment_count))

/-- Key normalization of `Ranker.sort`: `(sort_key or "").strip().lower()`. -/
def normKey (k : Option String) : List Char :=
  strLower (stripL (k.getD "").data)

/-- Embedding of `Ranker.sort`: normalize the key, fall back to `"views"` when the key
is not in `VALID_SORTS`, then stable-sort descending by the chosen field. -/
def Ranker.sort (videos : List Video) (sortKey : Option String) : List Video :=
  let key0 := normKey sortKey
  let key := if key0 ≠ "views".data ∧ key0 ≠ "comments".data then "views".data else key0
  if key = "comments".data then List.insertionSort commentGe videos
  else List.insertionSort viewGe videos

/-- Increment-or-insert on an insertion-ordered association list:
`Counter[key] += 1` (also `dict` update semantics). -/
def bump (m : List (String × Nat)) (k : String) : List (String × Nat) :=
  match m with
  | [] => [(k, 1)]
  | (k1, n) :: rest => if k1 = k then (k1, n + 1) :: rest else (k1, n) :: bump rest k

/-- Counter lookup: a missing key reads as 0. -/
def getCount (m : List (String × Nat)) (k : String) : Nat :=
  match m with
  | [] => 0
  | (k1, n) :: rest => if k1 = k then n else getCount rest k

/-- Inner needle loop of `run_on_videos` over one lowercased comment text:
every needle with a non-empty lowercased form contained in the text bumps
its (stripped) original term. -/
def bumpNeedles (needles : List (String × List Char)) (text : List Char)
    (m : List (String × Nat)) : List (String × Nat) :=
  needles.foldl (fun acc p => if !p.2.isEmpty && containsSub p.2 text then bump acc p.1 else acc) m

/-- Comment loop of the unique-comment accumulation in `run_on_videos`. -/
def bumpComments (needles : List (String × List Char)) (comments : List String)
    (m : List (String × Nat)) : List (String × Nat) :=
  comments.foldl (fun acc c => bumpNeedles needles (strLower c.data) acc) m

/-- Embedding of `yt_radar.services.comment_terms_service.CommentTermsResult`. -/
structure CommentTermsResult where
  video : Video
  total_term_hits : Nat
  matched_comments : Nat
  samples : List String
  per_term_unique_comments : List (String × Nat)
deriving DecidableEq, Repr

/-- Needle preparation of `run_on_videos`: keep non-blank terms, strip
them, and pair each stripped original with its lowercased form. -/
def needlesOf (tq : TermQuery) : List (String × List Char) :=
  ((tq.terms.filter (fun t => !(isBlank t))).map pyStrip).map
    (fun t => (t, strLower t.data))

/-- Sort key of the per-video results: the pair
`(total_term_hits, matched_comments)`. -/
def lexKey (r : CommentTermsResult) : Nat × Nat := (r.total_term_hits, r.matched_comments)

/-- Lexicographic `≤` on `Nat × Nat` pairs (Python tuple comparison). -/
def pairLe (p q : Nat × Nat) : Prop := p.1 < q.1 ∨ (p.1 = q.1 ∧ p.2 ≤ q.2)

/-- Descending-lexicographic comparison on results: `a` may come before `b`. -/
def resGe (a b : CommentTermsResult) : Prop := pairLe (lexKey b) (lexKey a)

instance : DecidableRel resGe :=
  fun a b =>
    inferInstanceAs
      (Decidable ((lexKey b).1 < (lexKey a).1 ∨
        ((lexKey b).1 = (lexKey a).1 ∧ (lexKey b).2 ≤ (lexKey a).2)))

instance : IsTotal CommentTermsResult resGe := by
  constructor; intro a b; unfold resGe pairLe; omega

instance : IsTrans CommentTermsResult resGe := by
  constructor; intro a b c; unfold resGe pairLe; omega

instance : IsTotal Video viewGe := by
  constructor; intro a b; unfold viewGe; omega

instance : IsTrans Video viewGe := by
  constructor; intro a b c; unfold viewGe; omega

instance : IsTotal Video commentGe := by
  constructor; intro a b; unfold commentGe; omega

instance : IsTrans Video commentGe := by
  constructor; intro a b c; unfold commentGe; omega

/-- Video loop of `run_on_videos`, threading the global Counter: fetch the
comments of the video, accumulate per-video and global unique-comment totals,
run the matcher, and emit a result only when some comment matched. -/
def runGo (fetchC : String → Int → List String) (tq : TermQuery)
    (needles : List (String × List Char)) (cpv : Int) :
    List Video → List (String × Nat) → List CommentTermsResult × List (String × Nat)
  | [], tot => ([], tot)
  | v :: vs, tot =>
    let comments := fetchC v.video_id cpv
    let pv := bumpComments needles comments []
    let tot1 := bumpComments needles comments tot
    let r := matchQuery comments tq
    let rec1 := runGo fetchC tq needles cpv vs tot1
    if r.2.1 > 0 then (⟨v, r.1, r.2.1, r.2.2, pv⟩ :: rec1.1, rec1.2)
    else (rec1.1, rec1.2)

/-- Embedding of `CommentTermsService.run_on_videos`: run the video loop, then stable-sort
the per-video results descending by `(total_term_hits, matched_comments)`
and return them with the global term totals. -/
def runOnVideos (fetchC : String → Int → List String) (videos : List Video)
    (tq : TermQuery) (cpv : Int) : List CommentTermsResult × List (String × Nat) :=
  let z := runGo fetchC tq (needlesOf tq) cpv videos []
  (List.insertionSort resGe z.1, z.2)

/-- Embedding of `CommentTermsService.run`: search, fetch, rank by views (hard-coded),
truncate to `max(1, top_videos)`, delegate to `run_on_videos`. -/
def CommentTermsService.run (searchIds : String → Int → Int → List String)
    (fetchVideos : List String → List Video) (fetchC : String → Int → List String)
    (query : String) (pages per_page top_videos : Int) (tq : TermQuery) (cpv : Int) :
    List CommentTermsResult :=
  let ids := searchIds query pages per_page
  let videos := fetchVideos ids
  let ranked := Ranker.sort videos (some "views")
  let ranked := ranked.take (max 1 top_videos).toNat
  (runOnVideos fetchC ranked tq cpv).1

/-- The optional filtering step of `SearchService.search`
(`if filters: videos = self._filter.apply(videos, filters)`). -/
def applyOptFilter (parse : String → Option Int) (now : Int)
    (videos : List Video) (filters : Option Filters) : List Video :=
  match filters with
  | some f => VideoFilter.apply parse now videos f
  | none => videos

/-- Embedding of `SearchService.search`: search, fetch, optionally filter, rank by the
sort key of the caller, truncate to `max(1, top)`. -/
def SearchService.search (searchIds : String → Int → Int → List String)
    (fetchVideos : List String → List Video)
    (parse : String → Option Int) (now : Int)
    (query : String) (pages per_page top : Int) (sort : String)
    (filters : Option Filters) : List Video :=
  let ids := searchIds query pages per_page
  let videos := fetchVideos ids
  let videos := applyOptFilter parse now videos filters
  let ranked := Ranker.sort videos (some sort)
  ranked.take (max 1 top).toNat

/-! ## Specification-side (declarative) formulations -/

/-- Declarative match condition of the spec: a comment is matched iff
(mode `all`) every lowercased term is a substring of the lowercased text,
or (any other mode) at least one is. -/
def specMatched (tq : TermQuery) (c : String) : Bool :=
  if tq.mode = "all" then
    tq.terms.all (fun t => containsSub (strLower t.data) (strLower c.data))
  else
    tq.terms.any (fun t => containsSub (strLower t.data) (strLower c.data))

/-- Declarative hit count of the spec: the sum, over all terms, of the
non-overlapping occurrence counts in the lowercased comment text. -/
def specHits (tq : TermQuery) (c : String) : Nat :=
  (tq.terms.map (fun t => countOccs (strLower t.data) (strLower c.data))).sum

/-- Declarative pass predicate of the spec for the video filter. -/
def specPass (parse : String → Option Int) (now : Int) (f : Filters) (v : Video) : Bool :=
  decide (f.min_views ≤ v.view_count) && decide (f.min_comments ≤ v.comment_count) &&
    (match f.since_days with
     | none => true
     | some d =>
       match parse v.published_at with
       | none => false
       | some ts => decide (now - 86400 * (max d 0) ≤ ts))

/-- Declarative per-video outcome of `run_on_videos` (before sorting): a
result is emitted exactly for videos with at least one matched comment. -/
def specRes (fetchC : String → Int → List String) (tq : TermQuery)
    (needles : List (String × List Char)) (cpv : Int) (v : Video) :
    Option CommentTermsResult :=
  let comments := fetchC v.video_id cpv
  let r := matchQuery comments tq
  if r.2.1 > 0 then some ⟨v, r.1, r.2.1, r.2.2, bumpComments needles comments []⟩
  else none

/-! ## Helper lemmas -/

theorem strLower_isEmpty (l : List Char) : (strLower l).isEmpty = l.isEmpty := by
  cases l <;> rfl

theorem rankerSort_eq (videos : List Video) (k : Option String) :
    Ranker.sort videos k =
      if normKey k = "comments".data then List.insertionSort commentGe videos
      else List.insertionSort viewGe videos := by
  simp only [Ranker.sort]
  split_ifs with h1 h2 h3 h4 <;> try rfl
  · exact absurd h2 (by decide)
  · exact absurd h4 h1.2

/-! ## C9: empty term list -/

/-- C9: for every list of comments and every mode, `TermMatcher.match`
applied to a `TermQuery` whose term list is empty returns `(0, 0, [])`. -/
theorem claim_C9_main (comments : List String) (mode : String) :
    matchQuery comments ⟨[], mode⟩ = (0, 0, []) := rfl

/-! ## C10: sort-key normalization in Ranker.sort -/

/-- C10: `Ranker.sort` trims and lowercases the sort key before
recognition, so `" COMMENTS "` and `"Comments"` sort by `comment_count`,
while a `None` or empty key sorts by `view_count`. -/
theorem claim_C10_main (videos : List Video) :
    Ranker.sort videos (some " COMMENTS ") = List.insertionSort commentGe videos ∧
    Ranker.sort videos (some "Comments") = List.insertionSort commentGe videos ∧
    Ranker.sort videos none = List.insertionSort viewGe videos ∧
    Ranker.sort videos (some "") = List.insertionSort viewGe videos :=
  ⟨rfl, rfl, rfl, rfl⟩

/-! ## C5: Ranker.sort, corrected -/

/-- Demo video: few views, many comments. -/
def demoVa : Video := ⟨"a", "ta", "ca", "2025-01-01T00:00:00Z", 1, 10⟩

/-- Demo video: many views, few comments. -/
def demoVb : Video := ⟨"b", "tb", "cb", "2025-01-02T00:00:00Z", 10, 1⟩

/-- C5 counterexample: the key `" COMMENTS "` is not in
`{"views", "comments"}`, yet the output is not non-increasing in
`view_count` (the code normalizes the key and sorts by `comment_count`). -/
theorem claim_C5_cex :
    ¬ ((Ranker.sort [demoVa, demoVb] (some " COMMENTS ")).Pairwise viewGe) := by
  decide

/-- C5 (amended): `Ranker.sort` returns a permutation of its input; after
normalizing the key (trim + lowercase), a `"comments"` key yields a list
non-increasing in `comment_count` and any other key one non-increasing in
`view_count`; ties in the chosen field keep the input order. -/
theorem claim_C5_main (videos : List Video) (s : String) :
    (Ranker.sort videos (some s)).Perm videos ∧
    (normKey (some s) = "comments".data →
      (Ranker.sort videos (some s)).Pairwise commentGe ∧
      ∀ a b, [a, b].Sublist videos → a.comment_count = b.comment_count →
        [a, b].Sublist (Ranker.sort videos (some s))) ∧
    (normKey (some s) ≠ "comments".data →
      (Ranker.sort videos (some s)).Pairwise viewGe ∧
      ∀ a b, [a, b].Sublist videos → a.view_count = b.view_count →
        [a, b].Sublist (Ranker.sort videos (some s))) := by
  refine ⟨?_, ?_, ?_⟩
  · rw [rankerSort_eq]
    split_ifs
    · exact List.perm_insertionSort commentGe videos
    · exact List.perm_insertionSort viewGe videos
  · intro h
    rw [rankerSort_eq, if_pos h]
    refine ⟨List.sorted_insertionSort commentGe videos, ?_⟩
    intro a b hs he
    exact List.pair_sublist_insertionSort (le_of_eq he.symm) hs
  · intro h
    rw [rankerSort_eq, if_neg h]
    refine ⟨List.sorted_insertionSort viewGe videos, ?_⟩
    intro a b hs he
    exact List.pair_sublist_insertionSort (le_of_eq he.symm) hs

/-- C5 witness: the amended theorem applied at a concrete input, with the
normalized-key hypothesis of the non-`"comments"` branch discharged. -/
theorem claim_C5_witness :
    normKey (some "views") ≠ "comments".data ∧
    (Ranker.sort [demoVa, demoVb] (some "views")).Pairwise viewGe :=
  ⟨by decide, ((claim_C5_main [demoVa, demoVb] "views").2.2 (by decide)).1⟩

/-! ## C2: VideoFilter.apply -/

theorem publishedAfter_match (parse : String → Option Int) (pub : String) (cut : Int) :
    (match parse pub with
     | none => false
     | some ts => decide (cut ≤ ts)) = publishedAfter parse pub cut := by
  unfold publishedAfter
  rfl

theorem applyGo_spec (parse : String → Option Int) (now : Int) (f : Filters) :
    ∀ vs : List Video,
      applyGo parse (sinceCutoff now f.since_days) f vs = vs.filter (specPass parse now f)
  | [] => rfl
  | v :: vs => by
    have ih := applyGo_spec parse now f vs
    by_cases h1 : v.view_count < f.min_views
    · have hs : specPass parse now f v = false := by
        simp [specPass, show ¬(f.min_views ≤ v.view_count) from by omega]
      simp [applyGo, h1, hs, List.filter_cons, ih]
    · by_cases h2 : v.comment_count < f.min_comments
      · have hs : specPass parse now f v = false := by
          simp [specPass, show ¬(f.min_comments ≤ v.comment_count) from by omega]
        simp [applyGo, h1, h2, hs, List.filter_cons, ih]
      · have d1 : f.min_views ≤ v.view_count := by omega
        have d2 : f.min_comments ≤ v.comment_count := by omega
        cases hd : f.since_days with
        | none =>
          rw [hd] at ih
          have hs : specPass parse now f v = true := by simp [specPass, hd, d1, d2]
          simp only [sinceCutoff] at ih ⊢
          simp [applyGo, h1, h2, hs, List.filter_cons, ih]
        | some d =>
          rw [hd] at ih
          have hs : specPass parse now f v =
              publishedAfter parse v.published_at (now - 86400 * max d 0) := by
            simp only [specPass, hd, publishedAfter_match]
            simp [d1, d2]
          simp only [sinceCutoff] at ih ⊢
          cases h3 : publishedAfter parse v.published_at (now - 86400 * max d 0) with
          | false => simp [applyGo, h1, h2, h3, hs, List.filter_cons, ih]
          | true => simp [applyGo, h1, h2, h3, hs, List.filter_cons, ih]

/-- C2: for every list of videos and every `Filters` value,
`VideoFilter.apply` returns, in input order, exactly those videos passing
the view/comment thresholds and (when a recency bound is set) whose
publish timestamp parses and is at least `now - max(since_days, 0)` days;
parse failures exclude the video, a negative `since_days` acts as 0. -/
theorem claim_C2_main (parse : String → Option Int) (now : Int)
    (videos : List Video) (f : Filters) :
    VideoFilter.apply parse now videos f = videos.filter (specPass parse now f) :=
  applyGo_spec parse now f videos

/-! ## C1: TermMatcher.match, corrected -/

/-- Per-comment gate of the matcher loop: non-empty lowercased text that
satisfies the any/all condition against the prepared needles. -/
def codeOk (needles : List (List Char)) (mode : String) (c : String) : Bool :=
  !(strLower c.data).isEmpty && okFor needles mode (strLower c.data)

/-- Per-comment hit count of the matcher loop against the prepared needles. -/
def codeHits (needles : List (List Char)) (c : String) : Nat :=
  (needles.map (fun t => countOccs t (strLower c.data))).sum

theorem all_map_inner (l : List String) (f : String → List Char) (p : List Char → Bool) :
    (l.map f).all p = l.all (fun x => p (f x)) := by
  induction l with
  | nil => rfl
  | cons a t ih => simp [ih]

theorem any_map_inner (l : List String) (f : String → List Char) (p : List Char → Bool) :
    (l.map f).any p = l.any (fun x => p (f x)) := by
  induction l with
  | nil => rfl
  | cons a t ih => simp [ih]

theorem take_shift {α : Type} (s : List α) (c : α) (rest : List α) :
    s ++ (c :: rest).take (3 - s.length) =
      (if s.length < 3 then s ++ [c] else s) ++
        rest.take (3 - (if s.length < 3 then s ++ [c] else s).length) := by
  by_cases h : s.length < 3
  · obtain ⟨k, hk⟩ : ∃ k, 3 - s.length = k + 1 := ⟨3 - s.length - 1, by omega⟩
    simp only [if_pos h, hk, List.take_succ_cons, List.length_append,
      List.length_singleton, show 3 - (s.length + 1) = k from by omega]
    simp
  · have h0 : 3 - s.length = 0 := by omega
    simp [if_neg h, h0]

theorem matchGo_spec (needles : List (List Char)) (mode : String) :
    ∀ (cs : List String) (th m : Nat) (s : List String),
      matchGo needles mode cs th m s =
        (th + ((cs.filter (codeOk needles mode)).map (codeHits needles)).sum,
         m + (cs.filter (codeOk needles mode)).length,
         s ++ (cs.filter (codeOk needles mode)).take (3 - s.length))
  | [], th, m, s => by simp [matchGo]
  | c :: cs, th, m, s => by
    have ih := matchGo_spec needles mode cs
    simp only [matchGo]
    cases hE : (strLower c.data).isEmpty with
    | true =>
      have hp : codeOk needles mode c = false := by simp [codeOk, hE]
      simp [hE, List.filter_cons, hp, ih]
    | false =>
      cases hOk : okFor needles mode (strLower c.data) with
      | false =>
        have hp : codeOk needles mode c = false := by simp [codeOk, hE, hOk]
        simp [hE, hOk, List.filter_cons, hp, ih]
      | true =>
        have hp : codeOk needles mode c = true := by simp [codeOk, hE, hOk]
        simp only [hE, hOk, Bool.false_eq_true, if_false, if_true, List.filter_cons, hp,
          ih, List.map_cons, List.sum_cons, List.length_cons]
        refine Prod.ext ?_ (Prod.ext ?_ ?_)
        · show th + (codeHits needles c) + _ = th + (codeHits needles c + _)
          omega
        · show m + 1 + _ = m + (_ + 1)
          omega
        · exact (take_shift s c _).symm

theorem termsFilter_id (tq : TermQuery) (hnb : ∀ t ∈ tq.terms, isBlank t = false) :
    tq.terms.filter (fun t => !(isBlank t)) = tq.terms :=
  List.filter_eq_self.mpr (fun t ht => by simp [hnb t ht])

theorem notBlank_data_ne (t : String) (h : isBlank t = false) : t.data ≠ [] := by
  intro hd
  simp [isBlank, hd] at h

theorem codeOk_eq_spec (tq : TermQuery) (hne : tq.terms ≠ [])
    (hnb : ∀ t ∈ tq.terms, isBlank t = false) (c : String) :
    codeOk (tq.terms.map (fun t => strLower t.data)) tq.mode c = specMatched tq c := by
  cases hE : (strLower c.data).isEmpty with
  | false =>
    simp only [codeOk, hE, Bool.not_false, Bool.true_and, okFor, specMatched]
    split_ifs
    · exact all_map_inner tq.terms _ _
    · exact any_map_inner tq.terms _ _
  | true =>
    have hc : strLower c.data = [] := by
      cases hl : strLower c.data with
      | nil => rfl
      | cons x xs => rw [hl] at hE; exact absurd hE (by simp)
    have hterm : ∀ t ∈ tq.terms, containsSub (strLower t.data) (strLower c.data) = false := by
      intro t ht
      rw [hc]
      have hd := notBlank_data_ne t (hnb t ht)
      cases hdl : t.data with
      | nil => exact absurd hdl hd
      | cons x xs => simp [containsSub, strLower, hdl]
    have hfalse : specMatched tq c = false := by
      unfold specMatched
      split_ifs
      · cases hts : tq.terms with
        | nil => exact absurd hts hne
        | cons a l =>
          refine List.all_eq_false.mpr ⟨a, by simp, ?_⟩
          simp [hterm a (by simp [hts])]
      · exact List.any_eq_false.mpr (fun x hx => by simp [hterm x hx])
    simp [codeOk, hE, hfalse]

theorem codeHits_eq_spec (tq : TermQuery) (c : String) :
    codeHits (tq.terms.map (fun t => strLower t.data)) c = specHits tq c := by
  simp [codeHits, specHits, List.map_map, Function.comp_def]

/-- C1 counterexample: on the very scenario given in the claim the total
hit count is 4, not 3 — the third comment lowercases to
`"pob is great, pob pob"`, which contains three occurrences of `"pob"`.
Moreover, for the non-empty term list `[" "]` the claim predicts a match
on `"a b"` (the blank term is a substring), yet the code discards blank
terms and returns `(0, 0, [])`. -/
theorem claim_C1_cex :
    (matchQuery ["I love pob builds", "no mention here", "POB is great, pob pob"]
        ⟨["pob"], "any"⟩).1 = 4 ∧
    (matchQuery ["I love pob builds", "no mention here", "POB is great, pob pob"]
        ⟨["pob"], "any"⟩).1 ≠ 3 ∧
    matchQuery ["a b"] ⟨[" "], "any"⟩ = (0, 0, []) ∧
    (matchQuery ["a b"] ⟨[" "], "any"⟩).2.1 ≠ 1 := by
  decide

/-- C1 (amended): for term queries whose terms are all non-blank (the code
discards blank terms up front), `TermMatcher.match` returns the sum of the
per-term non-overlapping occurrence counts over matched comments, the
number of matched comments, and the first 3 matched comments verbatim; on
the claimed scenario the totals are `matched_comments = 2` and
`total_hits = 4` (not 3). -/
theorem claim_C1_main (comments : List String) (tq : TermQuery)
    (hne : tq.terms ≠ []) (hnb : ∀ t ∈ tq.terms, isBlank t = false) :
    matchQuery comments tq =
      (((comments.filter (specMatched tq)).map (specHits tq)).sum,
       (comments.filter (specMatched tq)).length,
       (comments.filter (specMatched tq)).take 3) := by
  have hfan : comments.filter (codeOk (tq.terms.map (fun t => strLower t.data)) tq.mode) =
      comments.filter (specMatched tq) :=
    List.filter_congr (fun c _ => codeOk_eq_spec tq hne hnb c)
  have hmapF : (comments.filter (specMatched tq)).map
        (codeHits (tq.terms.map (fun t => strLower t.data))) =
      (comments.filter (specMatched tq)).map (specHits tq) :=
    List.map_congr_left (fun c _ => codeHits_eq_spec tq c)
  have hmap_ne : ((tq.terms.filter (fun t => !(isBlank t))).map
      (fun t => strLower t.data)).isEmpty = false := by
    rw [termsFilter_id tq hnb]
    cases h : tq.terms with
    | nil => exact absurd h hne
    | cons a l => simp [h]
  simp only [matchQuery, hmap_ne, Bool.false_eq_true, if_false]
  rw [termsFilter_id tq hnb, matchGo_spec]
  simp only [Nat.zero_add, List.nil_append, List.length_nil, Nat.sub_zero]
  rw [hfan, hmapF]

/-- C1 witness: the amended theorem applied to the claimed scenario, with
both hypotheses discharged concretely. -/
theorem claim_C1_witness :
    (TermQuery.mk ["pob"] "any").terms ≠ [] ∧
    (∀ t ∈ (TermQuery.mk ["pob"] "any").terms, isBlank t = false) ∧
    matchQuery ["I love pob builds", "no mention here", "POB is great, pob pob"]
        ⟨["pob"], "any"⟩ =
      (((["I love pob builds", "no mention here", "POB is great, pob pob"].filter
            (specMatched ⟨["pob"], "any"⟩)).map (specHits ⟨["pob"], "any"⟩)).sum,
       (["I love pob builds", "no mention here", "POB is great, pob pob"].filter
            (specMatched ⟨["pob"], "any"⟩)).length,
       (["I love pob builds", "no mention here", "POB is great, pob pob"].filter
            (specMatched ⟨["pob"], "any"⟩)).take 3) :=
  ⟨by decide, by decide, claim_C1_main _ _ (by decide) (by decide)⟩

/-! ## C4: per-video results list shape of run_on_videos -/

theorem runGo_fst (fetchC : String → Int → List String) (tq : TermQuery)
    (needles : List (String × List Char)) (cpv : Int) :
    ∀ (vs : List Video) (tot : List (String × Nat)),
      (runGo fetchC tq needles cpv vs tot).1 =
        vs.filterMap (specRes fetchC tq needles cpv)
  | [], _ => rfl
  | v :: vs, tot => by
    have ih := runGo_fst fetchC tq needles cpv vs
    simp only [runGo, List.filterMap_cons, specRes]
    by_cases h : (matchQuery (fetchC v.video_id cpv) tq).2.1 > 0
    · simp [h, ih]
    · simp [h, ih]

/-- C4: the per-video results of `run_on_videos` are a permutation of the
in-input-order results of the videos with at least one matched comment
(zero-match videos excluded), sorted non-increasingly by the lexicographic
pair `(total_term_hits, matched_comments)`, and ties between equal pairs
keep the input order. -/
theorem claim_C4_main (fetchC : String → Int → List String) (videos : List Video)
    (tq : TermQuery) (cpv : Int) :
    (runOnVideos fetchC videos tq cpv).1.Perm
        (videos.filterMap (specRes fetchC tq (needlesOf tq) cpv)) ∧
    (runOnVideos fetchC videos tq cpv).1.Pairwise resGe ∧
    (∀ a b, [a, b].Sublist (videos.filterMap (specRes fetchC tq (needlesOf tq) cpv)) →
      lexKey a = lexKey b → [a, b].Sublist (runOnVideos fetchC videos tq cpv).1) := by
  have hfst : (runOnVideos fetchC videos tq cpv).1 =
      List.insertionSort resGe (videos.filterMap (specRes fetchC tq (needlesOf tq) cpv)) := by
    simp only [runOnVideos]
    rw [runGo_fst]
  rw [hfst]
  refine ⟨List.perm_insertionSort _ _, List.sorted_insertionSort _ _, ?_⟩
  intro a b hs he
  refine List.pair_sublist_insertionSort ?_ hs
  show pairLe (lexKey b) (lexKey a)
  rw [he]
  exact Or.inr ⟨rfl, le_rfl⟩

/-! ## C8: global totals are independent of the match mode -/

theorem runGo_snd (fetchC : String → Int → List String) (tq : TermQuery)
    (needles : List (String × List Char)) (cpv : Int) :
    ∀ (vs : List Video) (tot : List (String × Nat)),
      (runGo fetchC tq needles cpv vs tot).2 =
        vs.foldl (fun acc v => bumpComments needles (fetchC v.video_id cpv) acc) tot
  | [], _ => rfl
  | v :: vs, tot => by
    have ih := runGo_snd fetchC tq needles cpv vs
    simp only [runGo, List.foldl_cons]
    by_cases h : (matchQuery (fetchC v.video_id cpv) tq).2.1 > 0
    · simp [h, ih]
    · simp [h, ih]

/-- C8: for a fixed video list, fetched comments and term list, the global
per-term unique-comment totals of `run_on_videos` are identical for any
two match modes — they never consult the any/all mode of the matcher. -/
theorem claim_C8_main (fetchC : String → Int → List String) (videos : List Video)
    (ts : List String) (m1 m2 : String) (cpv : Int) :
    (runOnVideos fetchC videos ⟨ts, m1⟩ cpv).2 =
      (runOnVideos fetchC videos ⟨ts, m2⟩ cpv).2 := by
  simp only [runOnVideos]
  rw [runGo_snd, runGo_snd]
  rfl

/-! ## C6: SearchService.search -/

/-- C6: `SearchService.search` returns exactly the first `max(1, top)`
videos of the fetch → optional-filter → rank pipeline; with `top = 0` the
returned length is `min 1 (pipeline length)` — at most one video, and
exactly one when a candidate survives filtering. -/
theorem claim_C6_main (searchIds : String → Int → Int → List String)
    (fetchVideos : List String → List Video) (parse : String → Option Int) (now : Int)
    (query : String) (pages per_page top : Int) (sort : String)
    (filters : Option Filters) :
    SearchService.search searchIds fetchVideos parse now query pages per_page top sort
        filters =
      (Ranker.sort
          (applyOptFilter parse now (fetchVideos (searchIds query pages per_page)) filters)
          (some sort)).take (max 1 top).toNat ∧
    (SearchService.search searchIds fetchVideos parse now query pages per_page 0 sort
        filters).length =
      min 1 (Ranker.sort
          (applyOptFilter parse now (fetchVideos (searchIds query pages per_page)) filters)
          (some sort)).length := by
  refine ⟨rfl, ?_⟩
  show ((Ranker.sort _ _).take (max 1 (0 : Int)).toNat).length = _
  rw [show ((max 1 (0 : Int)).toNat) = 1 from rfl]
  simp [List.length_take]

/-! ## C7: CommentTermsService.run ranks by views only -/

/-- C7: `CommentTermsService.run` applies no filtering: it hands
`run_on_videos` exactly the first `max(1, top_videos)` videos of the
fetched candidates stable-sorted descending by `view_count` (the sort key
is hard-coded to views, independent of any caller-selected sort). -/
theorem claim_C7_main (searchIds : String → Int → Int → List String)
    (fetchVideos : List String → List Video) (fetchC : String → Int → List String)
    (query : String) (pages per_page top_videos : Int) (tq : TermQuery) (cpv : Int) :
    CommentTermsService.run searchIds fetchVideos fetchC query pages per_page top_videos
        tq cpv =
      (runOnVideos fetchC
        ((List.insertionSort viewGe (fetchVideos (searchIds query pages per_page))).take
          (max 1 top_videos).toNat) tq cpv).1 ∧
    (List.insertionSort viewGe (fetchVideos (searchIds query pages per_page))).Perm
      (fetchVideos (searchIds query pages per_page)) ∧
    (List.insertionSort viewGe (fetchVideos (searchIds query pages per_page))).Pairwise
      viewGe :=
  ⟨rfl, List.perm_insertionSort _ _, List.sorted_insertionSort _ _⟩

/-! ## C3: global per-term unique-comment totals, corrected -/

/-- How many needles bump `term` on a comment with lowercased text `text`:
needles whose lowercased form is non-empty, occurs in the text, and whose
(stripped) original is `term`. -/
def needleHitsAt (needles : List (String × List Char)) (text : List Char)
    (term : String) : Nat :=
  needles.countP (fun p => (!p.2.isEmpty && containsSub p.2 text) && p.1 = term)

theorem bumpNeedles_cons (p : String × List Char) (rest : List (String × List Char))
    (text : List Char) (m : List (String × Nat)) :
    bumpNeedles (p :: rest) text m =
      bumpNeedles rest text
        (if !p.2.isEmpty && containsSub p.2 text then bump m p.1 else m) := rfl

theorem bumpComments_cons (needles : List (String × List Char)) (c : String)
    (cs : List String) (m : List (String × Nat)) :
    bumpComments needles (c :: cs) m =
      bumpComments needles cs (bumpNeedles needles (strLower c.data) m) := rfl

theorem getCount_bump (m : List (String × Nat)) (k k2 : String) :
    getCount (bump m k) k2 = getCount m k2 + (if k2 = k then 1 else 0) := by
  induction m with
  | nil =>
    simp only [bump, getCount]
    by_cases h : k = k2
    · subst h; simp
    · rw [if_neg h, if_neg (fun hh => h hh.symm)]
  | cons p rest ih =>
    obtain ⟨k1, n⟩ := p
    simp only [bump]
    by_cases h1 : k1 = k
    · subst h1
      simp only [if_pos rfl, getCount]
      by_cases h2 : k1 = k2
      · subst h2; simp
      · rw [if_neg h2, if_neg h2, if_neg (fun hh => h2 hh.symm)]
        omega
    · rw [if_neg h1]
      simp only [getCount]
      by_cases h2 : k1 = k2
      · rw [if_pos h2, if_pos h2, if_neg (show ¬(k2 = k) from fun hh => h1 (h2.trans hh))]
        omega
      · rw [if_neg h2, if_neg h2]
        exact ih

theorem getCount_bumpNeedles (text : List Char) (term : String) :
    ∀ (needles : List (String × List Char)) (m : List (String × Nat)),
      getCount (bumpNeedles needles text m) term =
        getCount m term + needleHitsAt needles text term
  | [], m => by simp [bumpNeedles, needleHitsAt]
  | p :: rest, m => by
    have ih := getCount_bumpNeedles text term rest
    rw [bumpNeedles_cons, ih]
    simp only [needleHitsAt, List.countP_cons]
    cases hc : (!p.2.isEmpty && containsSub p.2 text) with
    | false => simp [hc, needleHitsAt]
    | true =>
      rw [if_pos rfl, getCount_bump]
      by_cases hp : p.1 = term
      · simp [hc, hp, needleHitsAt]
        omega
      · simp [hc, hp, Ne.symm hp, needleHitsAt]

theorem getCount_bumpComments (needles : List (String × List Char)) (term : String) :
    ∀ (comments : List String) (m : List (String × Nat)),
      getCount (bumpComments needles comments m) term =
        getCount m term +
          (comments.map (fun c => needleHitsAt needles (strLower c.data) term)).sum
  | [], m => by simp [bumpComments]
  | c :: cs, m => by
    have ih := getCount_bumpComments needles term cs
    rw [bumpComments_cons, ih, getCount_bumpNeedles]
    simp only [List.map_cons, List.sum_cons]
    omega

theorem getCount_videosFoldl (fetchC : String → Int → List String)
    (needles : List (String × List Char)) (cpv : Int) (term : String) :
    ∀ (vs : List Video) (m : List (String × Nat)),
      getCount (vs.foldl (fun acc v => bumpComments needles (fetchC v.video_id cpv) acc) m)
          term =
        getCount m term +
          (vs.map (fun v =>
            ((fetchC v.video_id cpv).map
              (fun c => needleHitsAt needles (strLower c.data) term)).sum)).sum
  | [], m => by simp
  | v :: vs, m => by
    have ih := getCount_videosFoldl fetchC needles cpv term vs
    simp only [List.foldl_cons, List.map_cons, List.sum_cons]
    rw [ih, getCount_bumpComments]
    omega

theorem blank_strip_empty (t : String) (h : isBlank t = true) : pyStrip t = "" := by
  have hdw : t.data.dropWhile Char.isWhitespace = [] := by
    rw [List.dropWhile_eq_nil_iff]
    intro x hx
    exact List.all_eq_true.mp h x hx
  show String.mk (stripL t.data) = String.mk []
  rw [stripL, hdw]
  rfl

theorem needlesOf_clean (tq : TermQuery)
    (hstrip : ∀ t ∈ tq.terms, pyStrip t = t ∧ t ≠ "") :
    needlesOf tq = tq.terms.map (fun t => (t, strLower t.data)) := by
  have hblank : ∀ t ∈ tq.terms, isBlank t = false := by
    intro t ht
    cases hb : isBlank t with
    | false => rfl
    | true =>
      have := blank_strip_empty t hb
      rw [(hstrip t ht).1] at this
      exact absurd this (hstrip t ht).2
  unfold needlesOf
  rw [termsFilter_id tq hblank]
  rw [List.map_congr_left (fun t ht => (hstrip t ht).1)]
  simp

theorem countP_notMem (term : String) (q : String → Bool) (l : List String)
    (h : term ∉ l) :
    l.countP (fun t => q t && decide (t = term)) = 0 := by
  rw [List.countP_eq_zero]
  intro a ha
  simp only [Bool.and_eq_true, decide_eq_true_eq]
  rintro ⟨-, rfl⟩
  exact h ha

theorem countP_key (term : String) (q : String → Bool) :
    ∀ l : List String, l.Nodup → term ∈ l →
      l.countP (fun t => q t && decide (t = term)) = if q term then 1 else 0
  | [], _, hm => absurd hm (by simp)
  | a :: l, hnd, hm => by
    have hnotin : a ∉ l := (List.nodup_cons.mp hnd).1
    rw [List.countP_cons]
    by_cases ha : a = term
    · have hnl : term ∉ l := ha ▸ hnotin
      rw [countP_notMem term q l hnl, ha]
      have hqd : q term = true ∨ q term = false := by
        cases q term
        · exact Or.inr rfl
        · exact Or.inl rfl
      cases hqd with
      | inl hq => simp [hq]
      | inr hq => simp [hq]
    · have hml : term ∈ l := by
        cases List.mem_cons.mp hm with
        | inl h => exact absurd h.symm ha
        | inr h => exact h
      rw [countP_key term q l (List.nodup_cons.mp hnd).2 hml]
      simp [ha]

theorem needleHitsAt_eval (tq : TermQuery) (term : String) (text : List Char)
    (hmem : term ∈ tq.terms) (hnd : tq.terms.Nodup)
    (hstrip : ∀ t ∈ tq.terms, pyStrip t = t ∧ t ≠ "") :
    needleHitsAt (needlesOf tq) text term =
      if containsSub (strLower term.data) text then 1 else 0 := by
  rw [needlesOf_clean tq hstrip]
  unfold needleHitsAt
  rw [List.countP_map]
  have hshape :
      ((fun p : String × List Char => (!p.2.isEmpty && containsSub p.2 text) && p.1 = term) ∘
        (fun t : String => (t, strLower t.data))) =
      (fun t : String =>
        (!(strLower t.data).isEmpty && containsSub (strLower t.data) text) &&
          decide (t = term)) := rfl
  rw [hshape,
    countP_key term
      (fun t => !(strLower t.data).isEmpty && containsSub (strLower t.data) text)
      tq.terms hnd hmem]
  have hne : term.data ≠ [] := by
    intro hd
    have : term = "" := by
      cases term with
      | mk d => simp at hd; rw [hd]
    exact (hstrip term hmem).2 this
  have hemp : (strLower term.data).isEmpty = false := by
    rw [strLower_isEmpty]
    cases hd : term.data with
    | nil => exact absurd hd hne
    | cons x xs => rfl
  simp [hemp]

theorem sum_ite_filter (p : String → Bool) :
    ∀ l : List String,
      (l.map (fun c => if p c then 1 else 0)).sum = (l.filter p).length
  | [] => rfl
  | c :: cs => by
    rw [List.map_cons, List.sum_cons, List.filter_cons, sum_ite_filter p cs]
    cases hc : p c with
    | false => simp [hc]
    | true => simp [hc, Nat.add_comm]

theorem sum_filter_flat (p : String → Bool) (g : Video → List String) :
    ∀ vs : List Video,
      (vs.map (fun v => ((g v).filter p).length)).sum = ((vs.flatMap g).filter p).length
  | [] => rfl
  | v :: vs => by
    rw [List.map_cons, List.sum_cons, List.flatMap_cons, List.filter_append,
      List.length_append, sum_filter_flat p g vs]

/-- A video with no statistics, used in concrete C3 instances. -/
def demoVd : Video := ⟨"d", "td", "cd", "2025-01-03T00:00:00Z", 0, 0⟩

/-- A comment fetcher that returns the single comment `"pob"` for every
video. -/
def fDup : String → Int → List String := fun _ _ => ["pob"]

/-- C3 counterexample: with the duplicated term list `["pob", "pob"]` the
global total for `"pob"` is 2 although only one distinct comment contains
it — each duplicate needle bumps the counter separately. -/
theorem claim_C3_cex :
    ¬ (getCount (runOnVideos fDup [demoVd] ⟨["pob", "pob"], "any"⟩ 5).2 "pob" =
        (([demoVd].flatMap (fun v => fDup v.video_id 5)).filter
          (fun c => containsSub (strLower "pob".data) (strLower c.data))).length) := by
  decide

/-- C3 (amended): for term lists whose terms are pairwise distinct,
non-empty and free of surrounding whitespace, the global totals of
`run_on_videos` map each term to the number of comment instances, across
all analyzed videos, whose lowercased text contains the lowercased term at
least once (a comment containing a term many times still counts once). -/
theorem claim_C3_main (fetchC : String → Int → List String) (videos : List Video)
    (tq : TermQuery) (cpv : Int) (term : String)
    (hmem : term ∈ tq.terms) (hnd : tq.terms.Nodup)
    (hstrip : ∀ t ∈ tq.terms, pyStrip t = t ∧ t ≠ "") :
    getCount (runOnVideos fetchC videos tq cpv).2 term =
      ((videos.flatMap (fun v => fetchC v.video_id cpv)).filter
        (fun c => containsSub (strLower term.data) (strLower c.data))).length := by
  simp only [runOnVideos]
  rw [runGo_snd, getCount_videosFoldl]
  have hinner : ∀ v : Video,
      ((fetchC v.video_id cpv).map
        (fun c => needleHitsAt (needlesOf tq) (strLower c.data) term)).sum =
      ((fetchC v.video_id cpv).filter
        (fun c => containsSub (strLower term.data) (strLower c.data))).length := by
    intro v
    rw [List.map_congr_left
      (fun c _ => needleHitsAt_eval tq term (strLower c.data) hmem hnd hstrip)]
    exact sum_ite_filter _ _
  rw [List.map_congr_left (fun v _ => hinner v)]
  rw [sum_filter_flat]
  simp [getCount]

/-- C3 witness: the amended theorem applied at a concrete input, all
hypotheses discharged concretely. -/
theorem claim_C3_witness :
    "pob" ∈ (TermQuery.mk ["pob"] "any").terms ∧
    (TermQuery.mk ["pob"] "any").terms.Nodup ∧
    (∀ t ∈ (TermQuery.mk ["pob"] "any").terms, pyStrip t = t ∧ t ≠ "") ∧
    getCount (runOnVideos fDup [demoVd] ⟨["pob"], "any"⟩ 5).2 "pob" =
      (([demoVd].flatMap (fun v => fDup v.video_id 5)).filter
        (fun c => containsSub (strLower "pob".data) (strLower c.data))).length :=
  ⟨by decide, by decide, by decide,
    claim_C3_main fDup [demoVd] ⟨["pob"], "any"⟩ 5 "pob" (by decide) (by decide) (by decide)⟩

end YtRadar
